import Mathlib

/-!
Verification of the OPC package/relationship model of `pptx/opc/package.py`.

We give a shallow embedding of the data model and operations of the source
file and prove the specified properties about them.

Conventions of the embedding:
* Parts are identified by natural-number ids (Python object identity).
* Python byte strings are modelled as `List Nat`.
* Python exceptions are modelled with `Except PyErr`.
* Python `dict` objects keyed by rId are modelled as lists of relationships
  with the rId as the key (`setItem` preserves insertion order and replaces
  in place, exactly as CPython dict assignment does).
* The relationship target mode `RELATIONSHIP_TARGET_MODE` (`RTM`) constant
  `RTM.EXTERNAL` is written `RTM.EXT` here, and the Python attribute
  `is_external` is written `is_ext` (same meaning, shortened names).
-/


/-- Python exception values raised by the modelled code. -/
inductive PyErr where
  | keyError (msg : String)
  | valueError (msg : String)
  | attributeError (msg : String)
deriving DecidableEq

/-- `RELATIONSHIP_TARGET_MODE` from `pptx.opc.constants`: `RTM.INTERNAL`
and `RTM.EXTERNAL` (the latter written `EXT` here). -/
inductive RTM where
  | INTERNAL
  | EXT
deriving DecidableEq

/-- The target slot of a `_Relationship`: a `Part` reference (by part id)
when the target mode is internal, a raw string reference (URL) when the
target mode is external.  In the source the mode and the payload are two
attributes that always agree; here they are fused into one sum type. -/
inductive RelTgt where
  | part (pid : Nat)
  | ref (url : String)
deriving DecidableEq

/-- `_Relationship`: value object describing a link from a part or package
to another part.  `rId`, `reltype` and `target` mirror the constructor
arguments `rId`, `reltype`, `target` of the source class (`base_uri` is
dropped: no claim concerns it). -/
structure _Relationship where
  rId : String
  reltype : String
  target : RelTgt
deriving DecidableEq

/-- `_Relationship.is_external`: true iff the target mode is `RTM.EXTERNAL`. -/
def _Relationship.is_ext (r : _Relationship) : Bool :=
  match r.target with
  | .ref _ => true
  | .part _ => false

/-- `_Relationships`: collection of `_Relationship` instances with dict
semantics, keyed by rId.  The underlying Python dict `_rels` is modelled by
the list of its values in insertion order; the key of an entry is its `rId`
field (the source always stores a relationship under its own rId). -/
structure _Relationships where
  rels : List _Relationship
deriving DecidableEq

/-- The key view of the dict `_rels`: the rIds in insertion order. -/
def _Relationships.keys (c : _Relationships) : List String :=
  c.rels.map _Relationship.rId

/-- `len(relationships)`. -/
def _Relationships.size (c : _Relationships) : Nat :=
  c.rels.length

/-- Dict assignment `self._rels[rel.rId] = rel`: replace in place if the key
exists, append otherwise (CPython dict update-or-insert semantics). -/
def upsert : List _Relationship → _Relationship → List _Relationship
  | [], rel => [rel]
  | r :: rs, rel => if r.rId = rel.rId then rel :: rs else r :: upsert rs rel

/-- `self._rels[rId] = rel` on the collection. -/
def _Relationships.setItem (c : _Relationships) (rel : _Relationship) : _Relationships :=
  ⟨upsert c.rels rel⟩

/-- Remove the entry with the given key (first occurrence). -/
def removeKey : List _Relationship → String → List _Relationship
  | [], _ => []
  | r :: rs, rId => if r.rId = rId then rs else r :: removeKey rs rId

/-- `_Relationships.pop(rId)`: removes and returns the relationship keyed by
`rId`; raises `KeyError` when the key is absent (Python `dict.pop` with no
default). -/
def _Relationships.pop (c : _Relationships) (rId : String) :
    Except PyErr (_Relationship × _Relationships) :=
  match c.rels.find? (fun r => r.rId = rId) with
  | some r => .ok (r, ⟨removeKey c.rels rId⟩)
  | none => .error (.keyError rId)

/-- Dict lookup `self._rels[rId]` as an option (used to state theorems). -/
def _Relationships.lookup (c : _Relationships) (rId : String) : Option _Relationship :=
  c.rels.find? (fun r => r.rId = rId)

/-- `_Relationships.add_relationship(reltype, target, rId, is_external)`:
direct insert by explicit id, returning the newly added relationship. -/
def _Relationships.add_relationship (c : _Relationships) (reltype : String)
    (target : RelTgt) (rId : String) : _Relationship × _Relationships :=
  let rel : _Relationship := ⟨rId, reltype, target⟩
  (rel, c.setItem rel)

/-- `_Relationships._rels_by_reltype[reltype]`: the relationships of the
given reltype, in insertion order (the defaultdict in the source is built by
iterating the collection in order). -/
def _Relationships.relsByReltype (c : _Relationships) (reltype : String) :
    List _Relationship :=
  c.rels.filter (fun r => r.reltype = reltype)

/-- `_Relationships._get_matching(reltype, target, is_external)`: optional
rId of the first relationship of `reltype` whose mode and target both match.
The source skips relationships whose `is_external` differs from the request
and then compares `target_ref` (external) or `target_part` (internal) with
the requested target; with the fused `RelTgt` both checks are exactly
equality of the `target` field. -/
def _Relationships._get_matching (c : _Relationships) (reltype : String)
    (target : RelTgt) : Option String :=
  ((c.relsByReltype reltype).find? (fun r => r.target = target)).map _Relationship.rId

/-- The descending probe list `range(k, 0, -1) = [k, k-1, ..., 1]` used by
`_next_rId` and `next_partname` (there `k = len + 1`). -/
def descendList (k : Nat) : List Nat :=
  ((List.range k).map (· + 1)).reverse

/-- The candidate string `"rId%d" % n`. -/
def rIdStr (n : Nat) : String :=
  "rId" ++ Nat.repr n

/-- `_Relationships._next_rId`: the first candidate `"rId%d" % n`, probing
`n` from `len + 1` downward to `1`, that is not already a key.  The Python
loop falls through (returning `None`) if every candidate is taken, which is
modelled by `Option` (and proved unreachable). -/
def _Relationships._next_rId (c : _Relationships) : Option String :=
  ((descendList (c.size + 1)).find? (fun n => decide (rIdStr n ∉ c.keys))).map rIdStr

/-- `_Relationships._add_relationship(reltype, target, is_external)`:
allocate the next rId and insert a new relationship under it, returning the
rId.  In the unreachable case where `_next_rId` fell through, the result is
`none`. -/
def _Relationships._add_relationship (c : _Relationships) (reltype : String)
    (target : RelTgt) : Option (String × _Relationships) :=
  (c._next_rId).map (fun rId => (rId, c.setItem ⟨rId, reltype, target⟩))

/-- `_Relationships.get_or_add(reltype, target_part)`. -/
def _Relationships.get_or_add (c : _Relationships) (reltype : String)
    (target_part : Nat) : Option (String × _Relationships) :=
  match c._get_matching reltype (.part target_part) with
  | some rId => some (rId, c)
  | none => c._add_relationship reltype (.part target_part)

/-- `_Relationships.get_or_add_ext_rel(reltype, target_ref)`. -/
def _Relationships.get_or_add_ext_rel (c : _Relationships) (reltype : String)
    (target_ref : String) : Option (String × _Relationships) :=
  match c._get_matching reltype (.ref target_ref) with
  | some rId => some (rId, c)
  | none => c._add_relationship reltype (.ref target_ref)

/-- `relate_to(target, reltype, is_external)` of `OpcPackage` and `Part`:
dispatches on the mode to `get_or_add_ext_rel` or `get_or_add` on the
collection. -/
def relate_to (c : _Relationships) (target : RelTgt) (reltype : String) :
    Option (String × _Relationships) :=
  match target with
  | .part pid => c.get_or_add reltype pid
  | .ref url => c.get_or_add_ext_rel reltype url

/-- `_Relationship.target_part`: the target part; raises `ValueError` when
the target mode is external. -/
def _Relationship.target_part (r : _Relationship) : Except PyErr Nat :=
  match r.target with
  | .part pid => .ok pid
  | .ref _ => .error (.valueError "target_part undefined when target-mode is external")

/-- `_Relationships.part_with_reltype(reltype)`: the target part of the
single relationship of matching reltype; `KeyError` on zero matches,
`ValueError` on more than one.  The source indexes `rels_of_reltype[0]`
after the two length checks, which is the single element in the remaining
case. -/
def _Relationships.part_with_reltype (c : _Relationships) (reltype : String) :
    Except PyErr Nat :=
  match c.relsByReltype reltype with
  | [] => .error (.keyError "no relationship of matching type in collection")
  | [r] => r.target_part
  | _ :: _ :: _ => .error (.valueError "multiple relationships of matching type in collection")

/-- The decimal digit characters of `n`, most significant first. -/
def digChars (n : Nat) : List Char :=
  if _h : n < 10 then [Nat.digitChar n]
  else digChars (n / 10) ++ [Nat.digitChar (n % 10)]
decreasing_by exact Nat.div_lt_self (by omega) (by omega)

/-- Numeric value of a decimal digit character. -/
def digVal (ch : Char) : Nat := ch.toNat - 48

/-- Parse a digit-character list back to a number. -/
def digValList (l : List Char) : Nat :=
  l.foldl (fun a ch => 10 * a + digVal ch) 0

/-- A loaded part viewed as a graph node: its partname and its own
relationship collection (`Part.rels`). -/
structure PartInfo where
  partname : String
  rels : _Relationships
deriving DecidableEq

/-- `OpcPackage`: the root aggregate.  `parts` is the universe of part
objects, indexed by part id (modelling Python object identity); `_rels` is
the package-level relationship collection. -/
structure OpcPackage where
  parts : List PartInfo
  _rels : _Relationships
deriving DecidableEq

/-- `part.rels` for the part with id `pid` (iteration order of the
collection); a non-existent id has no relationships. -/
def OpcPackage.relsOf (g : OpcPackage) (pid : Nat) : List _Relationship :=
  match g.parts.get? pid with
  | some p => p.rels.rels
  | none => []

/-- The recursive generator `walk_rels` inside `OpcPackage.iter_rels`:
yields each relationship of the given list in order; after an internal
relationship whose target part is unvisited, marks the part visited and
recursively yields that part's relationships, then continues.  `fuel` is an
explicit termination bound, decremented on every recursive call; with the
fuel supplied by `iter_rels` the `0` case is never reached. -/
def walkRels (g : OpcPackage) : Nat → List _Relationship → Finset Nat →
    List _Relationship × Finset Nat
  | 0, _, visited => ([], visited)
  | _ + 1, [], visited => ([], visited)
  | fuel + 1, rel :: rest, visited =>
    match rel.target with
    | .ref _ =>
      let r2 := walkRels g fuel rest visited
      (rel :: r2.1, r2.2)
    | .part pid =>
      if pid ∈ visited then
        let r2 := walkRels g fuel rest visited
        (rel :: r2.1, r2.2)
      else
        let r1 := walkRels g fuel (g.relsOf pid) (insert pid visited)
        let r2 := walkRels g fuel rest r1.2
        (rel :: (r1.1 ++ r2.1), r2.2)

/-- Fuel sufficient to finish a walk that starts with visited-set `v`: one
unit per unvisited part plus that part's relationship count. -/
def fuelNeed (g : OpcPackage) (v : Finset Nat) : Nat :=
  Finset.sum ((Finset.range g.parts.length) \ v) (fun pid => 1 + (g.relsOf pid).length)

/-- `OpcPackage.iter_rels`: depth-first traversal generating each
relationship of the package graph, starting from the package's own
collection with an empty visited set. -/
def OpcPackage.iter_rels (g : OpcPackage) : List _Relationship :=
  (walkRels g (g._rels.rels.length + fuelNeed g ∅) g._rels.rels ∅).1

/-- The loop body of `OpcPackage.iter_parts`: iterate the relationship
stream, skip external relationships, and yield each target part not yielded
before. -/
def iterPartsAux : List _Relationship → Finset Nat → List Nat
  | [], _ => []
  | rel :: rest, visited =>
    match rel.target with
    | .ref _ => iterPartsAux rest visited
    | .part pid =>
      if pid ∈ visited then iterPartsAux rest visited
      else pid :: iterPartsAux rest (insert pid visited)

/-- `OpcPackage.iter_parts`: exactly one reference to each part, derived
from `iter_rels` with a fresh visited set. -/
def OpcPackage.iter_parts (g : OpcPackage) : List Nat :=
  iterPartsAux g.iter_rels ∅

/-- Reachability of a part from the package's own relationships via
internal relationship edges. -/
inductive Reach (g : OpcPackage) : Nat → Prop where
  | base {rel : _Relationship} {pid : Nat} :
      rel ∈ g._rels.rels → rel.target = .part pid → Reach g pid
  | step {q : Nat} {rel : _Relationship} {pid : Nat} :
      Reach g q → rel ∈ g.relsOf q → rel.target = .part pid → Reach g pid

/-- A single-placeholder printf template, split at its one `%d`:
`"/ppt/slides/slide%d.xml"` has `pfx = "/ppt/slides/slide"` and
`sfx = ".xml"`. -/
structure Tmpl where
  pfx : String
  sfx : String
deriving DecidableEq

/-- `tmpl % n`. -/
def Tmpl.render (t : Tmpl) (n : Nat) : String :=
  t.pfx ++ Nat.repr n ++ t.sfx

/-- The raw template string (with the literal `%d` placeholder). -/
def Tmpl.str (t : Tmpl) : String :=
  t.pfx ++ "%d" ++ t.sfx

/-- Whether the first list is an initial segment of the second
(char-by-char). -/
def leadsWith : List Char → List Char → Bool
  | [], _ => true
  | _ :: _, [] => false
  | p :: ps, h :: hs => p == h && leadsWith ps hs

/-- Python `hay.find(pat)`: character index of the first occurrence of
`pat` in `hay`; in the absent case (which Python signals with `-1`,
never reached by `next_partname` since `"42"` always occurs in
`tmpl % 42`) the result defaults to `hay.length`. -/
def strFind (hay pat : String) : Nat :=
  (((List.range (hay.length + 1)).find?
    (fun i => leadsWith pat.toList (hay.toList.drop i)))).getD hay.length

/-- The prefix computation `tmpl[: (tmpl % 42).find("42")]` at the top of
`next_partname` (a character slice of the raw template string). -/
def Tmpl.computedPfx (t : Tmpl) : String :=
  ((t.str).toList.take (strFind (t.render 42) "42")).asString

/-- `p.partname` for the part with id `pid` (empty for a nonexistent id). -/
def OpcPackage.partnameOf (g : OpcPackage) (pid : Nat) : String :=
  match g.parts.get? pid with
  | some p => p.partname
  | none => ""

/-- Python `s.startswith(pre)`: char-by-char initial-segment test. -/
def pyStartswith (s pre : String) : Bool :=
  leadsWith pre.toList s.toList

/-- The set built by `next_partname`: partnames of `iter_parts()` starting
with the given prefix (a Python set, hence a `Finset`). -/
def OpcPackage.matchingPartnames (g : OpcPackage) (pfxStr : String) : Finset String :=
  ((g.iter_parts.map g.partnameOf).filter (fun s => pyStartswith s pfxStr)).toFinset

/-- `OpcPackage.next_partname(tmpl)`: collect the matching partnames, then
probe `tmpl % n` for `n` from `len(partnames) + 1` down to `1` and return
the first candidate not in the set.  The fall-through (the source raises
`Exception("ProgrammingError: ran out of candidate_partnames")`) is
modelled by `none` and proved unreachable. -/
def OpcPackage.next_partname (g : OpcPackage) (t : Tmpl) : Option String :=
  let partnames := g.matchingPartnames t.computedPfx
  ((descendList (partnames.card + 1)).find?
      (fun n => decide (t.render n ∉ partnames))).map t.render

/-- The template for slide partnames used in the examples below. -/
def slidesTmpl : Tmpl :=
  ⟨"/ppt/slides/slide", ".xml"⟩

/-- Example package holding parts `slide1` and `slide4` (a gap at 2 and 3),
both related directly from the package. -/
def gapPkg : OpcPackage :=
  ⟨[⟨"/ppt/slides/slide1.xml", ⟨[]⟩⟩, ⟨"/ppt/slides/slide4.xml", ⟨[]⟩⟩],
   ⟨[⟨"rId1", "t", .part 0⟩, ⟨"rId2", "t", .part 1⟩]⟩⟩

/-- `PackURI.from_rel_ref(baseURI, relative_ref)`.  Modelled from the spec:
the PackURI module is not part of the analysed source; the spec says
relative references "are resolved against the owning part's (or the package
root's) location".  An absolute reference is kept as is, a relative one is
joined to the base URI. -/
def from_rel_ref (base_uri target_ref : String) : String :=
  if pyStartswith target_ref "/" then target_ref
  else if base_uri = "/" then "/" ++ target_ref
  else base_uri ++ "/" ++ target_ref

/-- A parsed `CT_Relationship` element of a `.rels` XML document (an entry
of `xml_rels.relationship_lst`): the `Id`, `Type`, `TargetMode` and
`Target` attributes. -/
structure CT_RelationshipElm where
  rId : String
  reltype : String
  targetMode : RTM
  target_ref : String
deriving DecidableEq

/-- `partname in parts` / `parts[partname]` on the loader's part map
(partname-keyed dict of loaded parts, parts referenced by id). -/
def partsLookup (parts : List (String × Nat)) (partname : String) : Option Nat :=
  (parts.find? (fun e => e.1 = partname)).map Prod.snd

/-- `_Relationship.from_xml(baseURI, rel, parts)`: build a relationship
from an XML element, resolving an internal target through the part map.
The `none` case (internal with missing partname, where the source's
`parts[partname]` would raise) is filtered out beforehand by
`load_from_xml`. -/
def _Relationship.from_xml (base_uri : String) (e : CT_RelationshipElm)
    (parts : List (String × Nat)) : Option _Relationship :=
  match e.targetMode with
  | .EXT => some ⟨e.rId, e.reltype, .ref e.target_ref⟩
  | .INTERNAL =>
      (partsLookup parts (from_rel_ref base_uri e.target_ref)).map
        (fun pid => ⟨e.rId, e.reltype, .part pid⟩)

/-- `iter_valid_rels` inside `_Relationships.load_from_xml`: skip (without
raising) any internal relationship element whose resolved target partname
is not present in the part map (tools "void" targets into names like
`/ppt/slides/NULL`); yield the resolved relationship otherwise. -/
def iter_valid_rels (base_uri : String) (xml_rels : List CT_RelationshipElm)
    (parts : List (String × Nat)) : List _Relationship :=
  xml_rels.filterMap (fun e =>
    if e.targetMode = RTM.INTERNAL ∧
        partsLookup parts (from_rel_ref base_uri e.target_ref) = none
    then none
    else _Relationship.from_xml base_uri e parts)

/-- `_Relationships.load_from_xml(base_uri, xml_rels, parts)`: replace any
previous contents of the collection (`dict.clear`) with the valid
relationships keyed by their rIds (`dict.update`).  Total: no error is
possible. -/
def _Relationships.load_from_xml (base_uri : String)
    (xml_rels : List CT_RelationshipElm) (parts : List (String × Nat)) :
    _Relationships :=
  ⟨(iter_valid_rels base_uri xml_rels parts).foldl upsert []⟩

/-- A serialized relationship record `(source_uri, srel)` yielded by
`pkg_reader.iter_srels()`: owner uri (`"/"` for the package root), then the
record's id, type, mode, resolved absolute target partname (internal mode)
and raw target reference (external mode). -/
structure SRel where
  rId : String
  reltype : String
  targetMode : RTM
  target_partname : String
  target_ref : String
deriving DecidableEq

/-- The relationship collections being filled by the unmarshaller: the
package's own collection plus one per part, keyed by partname (a part's
`_rels` is lazily created empty). -/
structure LoadState where
  pkgRels : _Relationships
  partRels : List (String × _Relationships)
deriving DecidableEq

/-- The (lazily created) relationship collection of the part named
`partname`. -/
def lookupPartRels (l : List (String × _Relationships)) (partname : String) :
    _Relationships :=
  ((l.find? (fun e => e.1 = partname)).map Prod.snd).getD ⟨[]⟩

/-- Store back a part's relationship collection. -/
def setPartRels : List (String × _Relationships) → String → _Relationships →
    List (String × _Relationships)
  | [], pn, c => [(pn, c)]
  | e :: rest, pn, c => if e.1 = pn then (pn, c) :: rest else e :: setPartRels rest pn c

/-- `Unmarshaller._unmarshal_relationships(pkg_reader, package, parts)`:
for each serialized relationship record resolve the owner (`package` when
`source_uri == "/"`, else `parts[source_uri]`) and then the target
(`srel.target_ref` when external, else `parts[srel.target_partname]` —
a plain dict access, which raises `KeyError` when the target partname is
absent from the part map), and install the relationship via the owner's
`load_rel` (i.e. `add_relationship` under the record's own rId). -/
def _unmarshal_relationships (srels : List (String × SRel))
    (parts : List (String × Nat)) (st : LoadState) : Except PyErr LoadState :=
  match srels with
  | [] => .ok st
  | (source_uri, s) :: rest =>
    let srcOk : Except PyErr Unit :=
      if source_uri = "/" then .ok () else
        match partsLookup parts source_uri with
        | some _ => .ok ()
        | none => .error (.keyError source_uri)
    match srcOk with
    | .error e => .error e
    | .ok _ =>
      let tgt : Except PyErr RelTgt :=
        match s.targetMode with
        | .EXT => .ok (.ref s.target_ref)
        | .INTERNAL =>
          match partsLookup parts s.target_partname with
          | some pid => .ok (.part pid)
          | none => .error (.keyError s.target_partname)
      match tgt with
      | .error e => .error e
      | .ok t =>
        if source_uri = "/" then
          _unmarshal_relationships rest parts
            ⟨(st.pkgRels.add_relationship s.reltype t s.rId).2, st.partRels⟩
        else
          _unmarshal_relationships rest parts
            ⟨st.pkgRels,
             setPartRels st.partRels source_uri
               ((lookupPartRels st.partRels source_uri).add_relationship
                 s.reltype t s.rId).2⟩

/-- The parsed XML tree of an `XmlPart`, restricted to the observable used
by `Part._rel_ref_count`: the values of all `r:id` attributes in the tree
in document order (the result of the lxml query `xpath("//@r:id")`; XML
parsing and the query engine are external collaborators). -/
structure XmlDoc where
  rIdVals : List String
deriving DecidableEq

/-- The state of an XML part read and written by `drop_rel`: the owned
element tree and the relationship collection (partname, content type and
package reference play no role in these operations). -/
structure XmlPartSt where
  element : XmlDoc
  _rels : _Relationships
deriving DecidableEq

/-- `Part._rel_ref_count(rId)`: the count of `r:id` attribute values in
the part's XML that are string-equal to `rId`. -/
def _rel_ref_count (p : XmlPartSt) (rId : String) : Nat :=
  (p.element.rIdVals.filter (fun x => x = rId)).length

/-- `Part.drop_rel(rId)`: remove the relationship identified by `rId` if
its reference count is under 2 (via `self._rels.pop(rId)`, which raises
`KeyError` when the key is absent); with 2 or more references do nothing. -/
def drop_rel (p : XmlPartSt) (rId : String) : Except PyErr XmlPartSt :=
  if _rel_ref_count p rId < 2 then
    match p._rels.pop rId with
    | .ok (_, c) => .ok ⟨p.element, c⟩
    | .error e => .error e
  else .ok p

/-- Base `Part` state for the `blob` property: only the hidden `_blob`
attribute matters (`None` until set). -/
structure PartSt where
  _blob : Option (List Nat)
deriving DecidableEq

/-- `Part.blob` getter: the blob loaded (or stored) earlier. -/
def PartSt.blobGet (p : PartSt) : Option (List Nat) :=
  p._blob

/-- `Part.blob` setter: stores the bytes in the hidden `_blob` field. -/
def PartSt.blobSet (_p : PartSt) (bytes_ : List Nat) : PartSt :=
  ⟨some bytes_⟩

/-- `XmlPart` state for the `blob` property: the owned element plus the
(inherited, but unused) `_blob` attribute. -/
structure XmlPartBlobSt where
  element : XmlDoc
  _blob : Option (List Nat)
deriving DecidableEq

/-- `serialize_part_xml(element)`.  Modelled from the spec: the XML
serializer lives in the external `pptx.opc.oxml` collaborator; only its
functional dependence on the element matters for the claims, so the `r:id`
attribute view of the tree is serialized to bytes. -/
def serialize_part_xml (e : XmlDoc) : List Nat :=
  (e.rIdVals.map (fun s => s.toList.map Char.toNat)).flatten

/-- `XmlPart.blob` getter: serializes the owned element on demand (never
consults `_blob`). -/
def XmlPartBlobSt.blobGet (p : XmlPartBlobSt) : List Nat :=
  serialize_part_xml p.element

/-- The assignment `p.blob = bytes_` on an `XmlPart` instance.  `XmlPart`
redefines the `blob` property with a getter only; in Python the subclass
property object shadows the whole base-class property, so its `fset` is
`None` and the assignment raises `AttributeError` — the base `Part.blob`
setter is not inherited by the new property and is unreachable from an
`XmlPart` instance. -/
def XmlPartBlobSt.blobSet (_p : XmlPartBlobSt) (_bytes : List Nat) :
    Except PyErr XmlPartBlobSt :=
  .error (.attributeError "cannot set attribute")

/-- Example package with a relationship cycle: parts 0 and 1 reference each
other (as slide and notesSlide do), part 0 is referenced from the package;
part 0 also carries an external relationship. -/
def cyclePkg : OpcPackage :=
  ⟨[⟨"/ppt/slides/slide1.xml",
     ⟨[⟨"rId1", "t", .part 1⟩, ⟨"rId2", "t", .ref "http://x"⟩]⟩⟩,
    ⟨"/ppt/notesSlides/notesSlide1.xml", ⟨[⟨"rId1", "t", .part 0⟩]⟩⟩],
   ⟨[⟨"rId1", "t", .part 0⟩]⟩⟩


theorem toDigitsCore_eq_digChars (fuel : Nat) :
    ∀ n ds, n < fuel → Nat.toDigitsCore 10 fuel n ds = digChars n ++ ds := by
  induction fuel with
  | zero => intro n ds h; omega
  | succ fuel ih =>
    intro n ds _
    by_cases h10 : n / 10 = 0
    · have hn : n < 10 := by omega
      rw [digChars, dif_pos hn]
      simp [Nat.toDigitsCore, h10, Nat.mod_eq_of_lt hn]
    · have hn : ¬ n < 10 := by omega
      have hlt : n / 10 < fuel := by
        have := Nat.div_lt_self (n := n) (by omega) (by omega : 1 < 10)
        omega
      simp only [Nat.toDigitsCore, if_neg h10]
      rw [ih (n / 10) _ hlt]
      conv_rhs => rw [digChars]
      rw [dif_neg hn, List.append_assoc]
      rfl

theorem repr_eq_digChars (n : Nat) : Nat.repr n = (digChars n).asString := by
  rw [Nat.repr, Nat.toDigits, toDigitsCore_eq_digChars (n + 1) n [] (Nat.lt_succ_self n),
    List.append_nil]

theorem digVal_digitChar (d : Nat) (h : d < 10) : digVal (Nat.digitChar d) = d := by
  interval_cases d <;> rfl

theorem digValList_digChars (n : Nat) : digValList (digChars n) = n := by
  induction n using Nat.strong_induction_on with
  | _ n ih =>
    by_cases h : n < 10
    · rw [digChars, dif_pos h]
      simp [digValList, digVal_digitChar n h]
    · rw [digChars, dif_neg h]
      have hlt : n / 10 < n := Nat.div_lt_self (by omega) (by omega)
      have := ih (n / 10) hlt
      simp only [digValList, List.foldl_append, List.foldl_cons, List.foldl_nil] at *
      rw [this, digVal_digitChar _ (Nat.mod_lt n (by omega))]
      omega

theorem digChars_injective : Function.Injective digChars := by
  intro m n h
  have := congrArg digValList h
  rwa [digValList_digChars, digValList_digChars] at this

theorem repr_injective : Function.Injective Nat.repr := by
  intro m n h
  apply digChars_injective
  rw [repr_eq_digChars, repr_eq_digChars] at h
  exact congrArg String.data h

theorem append_right_injective (a : String) :
    Function.Injective (fun s => a ++ s) := by
  intro s t h
  have hd : a.data ++ s.data = a.data ++ t.data := congrArg String.data h
  exact String.ext (List.append_cancel_left hd)

theorem append_left_injective (a : String) :
    Function.Injective (fun s => s ++ a) := by
  intro s t h
  have hd : s.data ++ a.data = t.data ++ a.data := congrArg String.data h
  exact String.ext (List.append_cancel_right hd)

theorem rIdStr_injective : Function.Injective rIdStr := by
  intro m n h
  exact repr_injective (append_right_injective "rId" h)

theorem descendList_succ (k : Nat) : descendList (k + 1) = (k + 1) :: descendList k := by
  simp [descendList, List.range_succ]

theorem mem_descendList {m k : Nat} : m ∈ descendList k ↔ 1 ≤ m ∧ m ≤ k := by
  simp only [descendList, List.mem_reverse, List.mem_map, List.mem_range]
  constructor
  · rintro ⟨a, ha, rfl⟩; omega
  · rintro ⟨h1, h2⟩; exact ⟨m - 1, by omega, by omega⟩

/-- What `find?` over the descending probe list returns: a hit `n` in
`[1, k]` such that every candidate above `n` (and at most `k`) misses. -/
theorem find_descendList_spec (p : Nat → Bool) (k : Nat) :
    ∀ n, (descendList k).find? p = some n →
      p n = true ∧ 1 ≤ n ∧ n ≤ k ∧ ∀ m, n < m → m ≤ k → p m = false := by
  induction k with
  | zero => intro n h; simp [descendList] at h
  | succ k ih =>
    intro n h
    rw [descendList_succ] at h
    by_cases hp : p (k + 1) = true
    · rw [List.find?_cons_of_pos _ hp] at h
      cases h
      exact ⟨hp, by omega, by omega, fun m h1 h2 => by omega⟩
    · have hp2 : ¬ p (k + 1) = true := hp
      rw [List.find?_cons_of_neg _ hp2] at h
      obtain ⟨h1, h2, h3, h4⟩ := ih n h
      refine ⟨h1, h2, by omega, fun m hm hm2 => ?_⟩
      by_cases hmk : m ≤ k
      · exact h4 m hm hmk
      · have : m = k + 1 := by omega
        subst this
        exact Bool.not_eq_true _ ▸ hp2

theorem find_descendList_isSome (p : Nat → Bool) (k : Nat)
    (h : ∃ m, 1 ≤ m ∧ m ≤ k ∧ p m = true) :
    ∃ n, (descendList k).find? p = some n := by
  obtain ⟨m, h1, h2, h3⟩ := h
  have hm : m ∈ descendList k := mem_descendList.mpr ⟨h1, h2⟩
  have : (descendList k).find? p |>.isSome := List.find?_isSome.mpr ⟨m, hm, h3⟩
  exact Option.isSome_iff_exists.mp this

/-- Pigeonhole: among the `card + 1` candidates `f 1, ..., f (card S + 1)`
(with `f` injective) at least one is outside `S`. -/
theorem exists_free_candidate {α : Type} [DecidableEq α] (S : Finset α) (f : Nat → α)
    (hf : Function.Injective f) :
    ∃ m, 1 ≤ m ∧ m ≤ S.card + 1 ∧ f m ∉ S := by
  by_contra hcon
  push_neg at hcon
  have hsub : (Finset.Icc 1 (S.card + 1)).image f ⊆ S := by
    intro x hx
    obtain ⟨m, hm, rfl⟩ := Finset.mem_image.mp hx
    obtain ⟨h1, h2⟩ := Finset.mem_Icc.mp hm
    exact hcon m h1 h2
  have hcard : ((Finset.Icc 1 (S.card + 1)).image f).card = S.card + 1 := by
    rw [Finset.card_image_of_injective _ hf, Nat.card_Icc]
    omega
  have := Finset.card_le_card hsub
  omega

/-- Full specification of what `_next_rId` returns on any state: the probe
always hits, the hit is free, lies in `[1, len + 1]`, and every candidate
above it in the probed range is occupied. -/
theorem _next_rId_spec (c : _Relationships) :
    ∃ n, c._next_rId = some (rIdStr n) ∧ 1 ≤ n ∧ n ≤ c.size + 1 ∧
      rIdStr n ∉ c.keys ∧ ∀ m, n < m → m ≤ c.size + 1 → rIdStr m ∈ c.keys := by
  have hcard : c.keys.toFinset.card ≤ c.size := by
    have h1 := c.keys.toFinset_card_le
    simpa [_Relationships.keys, _Relationships.size] using h1
  obtain ⟨m, hm1, hm2, hm3⟩ :=
    exists_free_candidate c.keys.toFinset rIdStr rIdStr_injective
  have hfree : ∃ m, 1 ≤ m ∧ m ≤ c.size + 1 ∧
      (fun n => decide (rIdStr n ∉ c.keys)) m = true := by
    refine ⟨m, hm1, by omega, ?_⟩
    simp only [decide_eq_true_eq]
    intro hmem
    exact hm3 (List.mem_toFinset.mpr hmem)
  obtain ⟨n, hn⟩ := find_descendList_isSome _ _ hfree
  obtain ⟨hp, h1, h2, h4⟩ := find_descendList_spec _ _ _ hn
  refine ⟨n, ?_, h1, h2, ?_, ?_⟩
  · simp only [_Relationships._next_rId, hn, Option.map_some']
  · simpa using hp
  · intro k hk1 hk2
    have := h4 k hk1 hk2
    simpa using this

/-- Appending under a fresh key: dict assignment with a key not yet present
appends at the end. -/
theorem upsert_of_fresh (l : List _Relationship) (rel : _Relationship)
    (h : rel.rId ∉ l.map _Relationship.rId) : upsert l rel = l ++ [rel] := by
  induction l with
  | nil => rfl
  | cons r rs ih =>
    simp only [List.map_cons, List.mem_cons] at h
    push_neg at h
    simp only [upsert, if_neg (Ne.symm h.1), List.cons_append]
    rw [ih h.2]

/-- If no relationship matched in `c`, the first match after appending a
matching relationship is exactly the appended one. -/
theorem get_matching_append (c : _Relationships) (new : _Relationship)
    (rt : String) (tgt : RelTgt) (hrt : new.reltype = rt) (htgt : new.target = tgt)
    (hnone : c._get_matching rt tgt = none) :
    _Relationships._get_matching ⟨c.rels ++ [new]⟩ rt tgt = some new.rId := by
  have hfind : (c.relsByReltype rt).find? (fun r => r.target = tgt) = none := by
    cases hcase : (c.relsByReltype rt).find? (fun r => r.target = tgt) with
    | none => rfl
    | some r =>
      exfalso
      simp only [_Relationships._get_matching, hcase, Option.map_some'] at hnone
      exact Option.noConfusion hnone
  simp only [_Relationships._get_matching, _Relationships.relsByReltype] at *
  rw [List.filter_append, List.find?_append, hfind]
  simp [hrt, htgt]

/-- Core idempotence of `get_or_add` / `get_or_add_ext_rel` (both have this
exact body, with an internal resp. external target). -/
theorem getOrAdd_core (c : _Relationships) (rt : String) (tgt : RelTgt) :
    ∃ rId c1,
      (match c._get_matching rt tgt with
       | some r => some (r, c)
       | none => c._add_relationship rt tgt) = some (rId, c1) ∧
      (match c1._get_matching rt tgt with
       | some r => some (r, c1)
       | none => c1._add_relationship rt tgt) = some (rId, c1) := by
  cases hm : c._get_matching rt tgt with
  | some r => exact ⟨r, c, by simp [hm], by simp [hm]⟩
  | none =>
    obtain ⟨n, hsome, _, _, hfree, _⟩ := _next_rId_spec c
    set new : _Relationship := ⟨rIdStr n, rt, tgt⟩ with hnew
    have hset : c.setItem new = ⟨c.rels ++ [new]⟩ := by
      simp only [_Relationships.setItem]
      rw [upsert_of_fresh]
      exact hfree
    refine ⟨rIdStr n, c.setItem new, ?_, ?_⟩
    · simp [hm, _Relationships._add_relationship, hsome, hnew]
    · have h2 : (c.setItem new)._get_matching rt tgt = some (rIdStr n) := by
        rw [hset]
        exact get_matching_append c new rt tgt rfl rfl hm
      simp [h2]

/-- Claim C3: `relate_to` (via `get_or_add` / `get_or_add_ext_rel`) is
idempotent: called twice with identical arguments (same reltype, same
target, same mode) it returns the same rId both times and the collection
after the second call equals the collection after the first (in particular
the relationship count is unchanged: an existing matching relationship is
reused rather than a new one created). -/
theorem relate_to_idempotent (c : _Relationships) (target : RelTgt) (reltype : String) :
    ∃ rId c1, relate_to c target reltype = some (rId, c1) ∧
      relate_to c1 target reltype = some (rId, c1) := by
  cases target with
  | part pid =>
    simpa [relate_to, _Relationships.get_or_add] using getOrAdd_core c reltype (.part pid)
  | ref url =>
    simpa [relate_to, _Relationships.get_or_add_ext_rel] using getOrAdd_core c reltype (.ref url)

/-- Claim C5, counterexample: on the state with keys `rId1, rId4` (reachable
e.g. by two `add_relationship` calls during load) the downward search
returns `rId3` although `rId2` is free, so `_next_rId` does not return the
smallest free positive id on every state. -/
theorem next_rId_counterexample_C5 :
    _Relationships._next_rId
        ⟨[⟨"rId1", "a", .ref "u"⟩, ⟨"rId4", "a", .ref "u"⟩]⟩ = some "rId3" ∧
      "rId2" ∉ _Relationships.keys
        ⟨[⟨"rId1", "a", .ref "u"⟩, ⟨"rId4", "a", .ref "u"⟩]⟩ ∧
      ("rId3" : String) ≠ "rId2" := by
  refine ⟨?_, by decide, by decide⟩
  rfl

/-- Claim C5 (amended): on a well-formed collection state — the keys are
distinct ids `"rId" + k` with every `k` in `[1, count + 1]` — `_next_rId`
returns `"rId" + n` where `n` is the smallest positive integer whose id is
not already a key; on such states the implemented downward search agrees
with an upward search from 1 (on other states it returns the largest free
candidate in `[1, count + 1]`, which can differ). -/
theorem next_rId_smallest_of_wellformed (c : _Relationships) (nums : List Nat)
    (hkeys : c.keys = nums.map rIdStr) (hnodup : nums.Nodup)
    (hbound : ∀ k ∈ nums, 1 ≤ k ∧ k ≤ c.size + 1) :
    ∃ n, c._next_rId = some (rIdStr n) ∧ rIdStr n ∉ c.keys ∧
      ∀ m, 1 ≤ m → m < n → rIdStr m ∈ c.keys := by
  obtain ⟨n, hsome, hn1, hn2, hfree, _⟩ := _next_rId_spec c
  have hlen : nums.length = c.size := by
    have h0 := congrArg List.length hkeys
    simp only [_Relationships.keys, List.length_map] at h0
    simpa [_Relationships.size] using h0.symm
  have hmemkeys : ∀ k, rIdStr k ∈ c.keys ↔ k ∈ nums := by
    intro k
    rw [hkeys]
    constructor
    · intro h
      obtain ⟨j, hj, hjeq⟩ := List.mem_map.mp h
      rwa [← rIdStr_injective hjeq]
    · intro h
      exact List.mem_map.mpr ⟨k, h, rfl⟩
  refine ⟨n, hsome, hfree, ?_⟩
  intro m hm1 hmn
  by_contra hmfree
  have hmnot : m ∉ nums := fun h => hmfree ((hmemkeys m).mpr h)
  have hnnot : n ∉ nums := fun h => hfree ((hmemkeys n).mpr h)
  have hsub : nums.toFinset ⊆ (Finset.Icc 1 (c.size + 1)) \ ({m, n} : Finset Nat) := by
    intro k hk
    have hk2 := List.mem_toFinset.mp hk
    obtain ⟨hb1, hb2⟩ := hbound k hk2
    rw [Finset.mem_sdiff, Finset.mem_Icc, Finset.mem_insert, Finset.mem_singleton]
    refine ⟨⟨hb1, hb2⟩, ?_⟩
    rintro (rfl | rfl)
    · exact hmnot hk2
    · exact hnnot hk2
  have hcard1 : nums.toFinset.card = c.size := by
    rw [List.toFinset_card_of_nodup hnodup, hlen]
  have hpair : ({m, n} : Finset Nat) ⊆ Finset.Icc 1 (c.size + 1) := by
    intro k hk
    rw [Finset.mem_insert, Finset.mem_singleton] at hk
    rw [Finset.mem_Icc]
    rcases hk with rfl | rfl
    · omega
    · omega
  have hpaircard : ({m, n} : Finset Nat).card = 2 := by
    rw [Finset.card_insert_of_not_mem (by simp; omega), Finset.card_singleton]
  have hsdcard : ((Finset.Icc 1 (c.size + 1)) \ ({m, n} : Finset Nat)).card
      = (c.size + 1) - 2 := by
    rw [Finset.card_sdiff hpair, Nat.card_Icc, hpaircard]
    omega
  have := Finset.card_le_card hsub
  rw [hcard1, hsdcard] at this
  omega

/-- Claim C7, counterexample: a collection whose single relationship of the
requested reltype is external: exactly one relationship of that reltype
exists, yet `part_with_reltype` raises `ValueError` (from `target_part`)
instead of returning a target part. -/
theorem part_with_reltype_counterexample_C7 :
    (_Relationships.relsByReltype ⟨[⟨"rId1", "t", .ref "http://x"⟩]⟩ "t").length = 1 ∧
      _Relationships.part_with_reltype ⟨[⟨"rId1", "t", .ref "http://x"⟩]⟩ "t" =
        .error (.valueError "target_part undefined when target-mode is external") := by
  constructor
  · rfl
  · rfl

/-- Claim C7 (amended): `part_related_by(reltype)` (delegating to
`part_with_reltype`) raises `KeyError` when zero relationships of the
reltype exist, `ValueError` when more than one exists, and when exactly one
exists it returns that relationship's target part if the relationship is
internal — but raises `ValueError` (target-mode misuse, from `target_part`)
if the single matching relationship is external. -/
theorem part_with_reltype_spec (c : _Relationships) (reltype : String) :
    ((c.relsByReltype reltype).length = 0 →
      c.part_with_reltype reltype =
        .error (.keyError "no relationship of matching type in collection")) ∧
    (2 ≤ (c.relsByReltype reltype).length →
      c.part_with_reltype reltype =
        .error (.valueError "multiple relationships of matching type in collection")) ∧
    (∀ r, c.relsByReltype reltype = [r] →
      (∀ pid, r.target = .part pid → c.part_with_reltype reltype = .ok pid) ∧
      (∀ url, r.target = .ref url → c.part_with_reltype reltype =
        .error (.valueError "target_part undefined when target-mode is external"))) := by
  refine ⟨?_, ?_, ?_⟩
  · intro h
    have hnil : c.relsByReltype reltype = [] := List.length_eq_zero.mp h
    simp [_Relationships.part_with_reltype, hnil]
  · intro h
    cases hl : c.relsByReltype reltype with
    | nil => rw [hl] at h; simp at h
    | cons r rs =>
      cases rs with
      | nil => rw [hl] at h; simp at h
      | cons r2 rs2 => simp [_Relationships.part_with_reltype, hl]
  · intro r hl
    constructor
    · intro pid hp
      simp [_Relationships.part_with_reltype, hl, _Relationship.target_part, hp]
    · intro url hp
      simp [_Relationships.part_with_reltype, hl, _Relationship.target_part, hp]

/-- Witness for C7: the three branches at concrete collections: zero
matches, two matches, and a single internal match. -/
theorem part_with_reltype_spec_witness :
    _Relationships.part_with_reltype ⟨[]⟩ "t" =
      .error (.keyError "no relationship of matching type in collection") ∧
    _Relationships.part_with_reltype
        ⟨[⟨"rId1", "t", .part 3⟩, ⟨"rId2", "t", .part 4⟩]⟩ "t" =
      .error (.valueError "multiple relationships of matching type in collection") ∧
    _Relationships.part_with_reltype ⟨[⟨"rId1", "t", .part 5⟩]⟩ "t" = .ok 5 :=
  ⟨(part_with_reltype_spec ⟨[]⟩ "t").1 (by decide),
   (part_with_reltype_spec ⟨[⟨"rId1", "t", .part 3⟩, ⟨"rId2", "t", .part 4⟩]⟩ "t").2.1
     (by decide),
   ((part_with_reltype_spec ⟨[⟨"rId1", "t", .part 5⟩]⟩ "t").2.2
     ⟨"rId1", "t", .part 5⟩ (by decide)).1 5 rfl⟩

/-- Witness for C5: on the dense state with keys `rId1, rId2` the allocator
returns `rId3`, the smallest (indeed only) free candidate. -/
theorem next_rId_smallest_witness :
    ∃ n, _Relationships._next_rId
        ⟨[⟨"rId1", "a", .ref "u"⟩, ⟨"rId2", "b", .ref "v"⟩]⟩ = some (rIdStr n) ∧
      rIdStr n ∉ _Relationships.keys
        ⟨[⟨"rId1", "a", .ref "u"⟩, ⟨"rId2", "b", .ref "v"⟩]⟩ ∧
      ∀ m, 1 ≤ m → m < n → rIdStr m ∈ _Relationships.keys
        ⟨[⟨"rId1", "a", .ref "u"⟩, ⟨"rId2", "b", .ref "v"⟩]⟩ :=
  next_rId_smallest_of_wellformed
    ⟨[⟨"rId1", "a", .ref "u"⟩, ⟨"rId2", "b", .ref "v"⟩]⟩ [1, 2]
    (by decide) (by decide) (by decide)

theorem walkRels_mono (g : OpcPackage) :
    ∀ fuel rels v, v ⊆ (walkRels g fuel rels v).2 := by
  intro fuel
  induction fuel with
  | zero => intro rels v; simp [walkRels]
  | succ fuel ih =>
    intro rels v
    cases rels with
    | nil => simp [walkRels]
    | cons rel rest =>
      cases htgt : rel.target with
      | ref url => simpa [walkRels, htgt] using ih rest v
      | part pid =>
        by_cases hv : pid ∈ v
        · simpa [walkRels, htgt, hv] using ih rest v
        · have h1 := ih (g.relsOf pid) (insert pid v)
          have h2 := ih rest (walkRels g fuel (g.relsOf pid) (insert pid v)).2
          simp only [walkRels, htgt, if_neg hv]
          exact subset_trans (subset_trans (Finset.subset_insert pid v) h1) h2

/-- Every internal relationship emitted by the walk has its target in the
final visited set. -/
theorem walkRels_targets (g : OpcPackage) :
    ∀ fuel rels v rel pid, rel ∈ (walkRels g fuel rels v).1 →
      rel.target = .part pid → pid ∈ (walkRels g fuel rels v).2 := by
  intro fuel
  induction fuel with
  | zero => intro rels v rel pid h; simp [walkRels] at h
  | succ fuel ih =>
    intro rels v rel pid hmem htgt
    cases rels with
    | nil => simp [walkRels] at hmem
    | cons rel0 rest =>
      cases htgt0 : rel0.target with
      | ref url =>
        simp only [walkRels, htgt0, List.mem_cons] at hmem ⊢
        rcases hmem with rfl | hmem
        · rw [htgt0] at htgt; exact RelTgt.noConfusion htgt
        · exact ih rest v rel pid hmem htgt
      | part pid0 =>
        by_cases hv : pid0 ∈ v
        · simp only [walkRels, htgt0, if_pos hv, List.mem_cons] at hmem ⊢
          rcases hmem with rfl | hmem
          · rw [htgt0] at htgt
            cases htgt
            exact walkRels_mono g fuel rest v hv
          · exact ih rest v rel pid hmem htgt
        · simp only [walkRels, htgt0, if_neg hv, List.mem_cons, List.mem_append] at hmem ⊢
          have hmono2 := walkRels_mono g fuel rest (walkRels g fuel (g.relsOf pid0) (insert pid0 v)).2
          rcases hmem with rfl | hmem | hmem
          · rw [htgt0] at htgt
            cases htgt
            have h1 : pid ∈ insert pid (v : Finset Nat) := Finset.mem_insert_self pid v
            exact hmono2 (walkRels_mono g fuel (g.relsOf pid) (insert pid v) h1)
          · exact hmono2 (ih (g.relsOf pid0) (insert pid0 v) rel pid hmem htgt)
          · exact ih rest (walkRels g fuel (g.relsOf pid0) (insert pid0 v)).2 rel pid hmem htgt

theorem fuelNeed_le_of_subset (g : OpcPackage) {v w : Finset Nat} (h : v ⊆ w) :
    fuelNeed g w ≤ fuelNeed g v := by
  apply Finset.sum_le_sum_of_subset
  intro x hx
  rw [Finset.mem_sdiff] at hx ⊢
  exact ⟨hx.1, fun hc => hx.2 (h hc)⟩

theorem fuelNeed_insert_of_mem (g : OpcPackage) {v : Finset Nat} {pid : Nat}
    (hr : pid ∈ Finset.range g.parts.length) (hv : pid ∉ v) :
    fuelNeed g v = (1 + (g.relsOf pid).length) + fuelNeed g (insert pid v) := by
  have hmem : pid ∈ (Finset.range g.parts.length) \ v := Finset.mem_sdiff.mpr ⟨hr, hv⟩
  have herase : (Finset.range g.parts.length) \ (insert pid v)
      = ((Finset.range g.parts.length) \ v).erase pid := by
    ext x
    simp only [Finset.mem_sdiff, Finset.mem_insert, Finset.mem_erase]
    tauto
  rw [fuelNeed, fuelNeed, herase, ← Finset.add_sum_erase _ _ hmem]

theorem relsOf_eq_nil_of_ge (g : OpcPackage) {pid : Nat}
    (h : g.parts.length ≤ pid) : g.relsOf pid = [] := by
  rw [OpcPackage.relsOf, List.get?_eq_none.mpr h]

theorem fuelNeed_insert_of_not_mem (g : OpcPackage) {v : Finset Nat} {pid : Nat}
    (hr : pid ∉ Finset.range g.parts.length) :
    fuelNeed g (insert pid v) = fuelNeed g v := by
  have : (Finset.range g.parts.length) \ (insert pid v)
      = (Finset.range g.parts.length) \ v := by
    ext x
    simp only [Finset.mem_sdiff, Finset.mem_insert]
    constructor
    · rintro ⟨h1, h2⟩; exact ⟨h1, fun hc => h2 (Or.inr hc)⟩
    · rintro ⟨h1, h2⟩
      refine ⟨h1, ?_⟩
      rintro (rfl | hc)
      · exact hr h1
      · exact h2 hc
  rw [fuelNeed, fuelNeed, this]

/-- With sufficient fuel the walk emits every relationship of its input
list, and emits every relationship of every part that became visited. -/
theorem walkRels_complete (g : OpcPackage) :
    ∀ fuel rels v, rels.length + fuelNeed g v ≤ fuel →
      (∀ rel ∈ rels, rel ∈ (walkRels g fuel rels v).1) ∧
      (∀ pid, pid ∈ (walkRels g fuel rels v).2 → pid ∉ v →
        ∀ rel ∈ g.relsOf pid, rel ∈ (walkRels g fuel rels v).1) := by
  intro fuel
  induction fuel with
  | zero =>
    intro rels v hbud
    have h1 : rels = [] := by
      cases rels with
      | nil => rfl
      | cons a b => simp at hbud
    subst h1
    constructor
    · intro rel h; simp at h
    · intro pid h1 h2
      simp only [walkRels] at h1
      exact absurd h1 h2
  | succ fuel ih =>
    intro rels v hbud
    cases rels with
    | nil =>
      constructor
      · intro rel h; simp at h
      · intro pid h1 h2
        simp only [walkRels] at h1
        exact absurd h1 h2
    | cons rel0 rest =>
      have hbud0 : rest.length + fuelNeed g v ≤ fuel := by
        simp only [List.length_cons] at hbud
        omega
      cases htgt0 : rel0.target with
      | ref url =>
        obtain ⟨iha, ihb⟩ := ih rest v hbud0
        constructor
        · intro rel hmem
          simp only [walkRels, htgt0, List.mem_cons] at *
          rcases hmem with rfl | hmem
          · exact Or.inl rfl
          · exact Or.inr (iha rel hmem)
        · intro pid h1 h2 rel hrel
          simp only [walkRels, htgt0, List.mem_cons] at h1 ⊢
          exact Or.inr (ihb pid h1 h2 rel hrel)
      | part pid0 =>
        by_cases hv : pid0 ∈ v
        · obtain ⟨iha, ihb⟩ := ih rest v hbud0
          constructor
          · intro rel hmem
            simp only [walkRels, htgt0, if_pos hv, List.mem_cons] at *
            rcases hmem with rfl | hmem
            · exact Or.inl rfl
            · exact Or.inr (iha rel hmem)
          · intro pid h1 h2 rel hrel
            simp only [walkRels, htgt0, if_pos hv, List.mem_cons] at h1 ⊢
            exact Or.inr (ihb pid h1 h2 rel hrel)
        · -- the recursion into the unvisited target part
          have hbud1 : (g.relsOf pid0).length + fuelNeed g (insert pid0 v) ≤ fuel := by
            by_cases hr : pid0 ∈ Finset.range g.parts.length
            · have := fuelNeed_insert_of_mem g hr hv
              omega
            · have h1 := fuelNeed_insert_of_not_mem g (v := v) hr
              have h2 : g.relsOf pid0 = [] := by
                apply relsOf_eq_nil_of_ge
                simp only [Finset.mem_range] at hr
                omega
              rw [h1, h2]
              simp only [List.length_nil]
              omega
          obtain ⟨ih1a, ih1b⟩ := ih (g.relsOf pid0) (insert pid0 v) hbud1
          have hv1mono := walkRels_mono g fuel (g.relsOf pid0) (insert pid0 v)
          have hbud2 : rest.length +
              fuelNeed g (walkRels g fuel (g.relsOf pid0) (insert pid0 v)).2 ≤ fuel := by
            have hle : fuelNeed g (walkRels g fuel (g.relsOf pid0) (insert pid0 v)).2
                ≤ fuelNeed g (insert pid0 v) := fuelNeed_le_of_subset g hv1mono
            by_cases hr : pid0 ∈ Finset.range g.parts.length
            · have := fuelNeed_insert_of_mem g hr hv
              omega
            · have := fuelNeed_insert_of_not_mem g (v := v) hr
              omega
          obtain ⟨ih2a, ih2b⟩ := ih rest (walkRels g fuel (g.relsOf pid0) (insert pid0 v)).2 hbud2
          constructor
          · intro rel hmem
            simp only [walkRels, htgt0, if_neg hv, List.mem_cons, List.mem_append] at *
            rcases hmem with rfl | hmem
            · exact Or.inl rfl
            · exact Or.inr (Or.inr (ih2a rel hmem))
          · intro pid h1 h2 rel hrel
            simp only [walkRels, htgt0, if_neg hv, List.mem_cons, List.mem_append] at h1 ⊢
            by_cases hpp : pid = pid0
            · subst hpp
              exact Or.inr (Or.inl (ih1a rel hrel))
            · by_cases hpv1 : pid ∈ (walkRels g fuel (g.relsOf pid0) (insert pid0 v)).2
              · have hnotins : pid ∉ insert pid0 v := by
                  simp only [Finset.mem_insert]
                  rintro (rfl | hc)
                  · exact hpp rfl
                  · exact h2 hc
                exact Or.inr (Or.inl (ih1b pid hpv1 hnotins rel hrel))
              · exact Or.inr (Or.inr (ih2b pid h1 hpv1 rel hrel))

/-- Membership in the deduplicating part stream: a part id is yielded iff
some relationship of the stream targets it internally and it was not
already visited. -/
theorem mem_iterPartsAux (l : List _Relationship) :
    ∀ (vis : Finset Nat) (pid : Nat),
      pid ∈ iterPartsAux l vis ↔
        (∃ rel ∈ l, rel.target = .part pid) ∧ pid ∉ vis := by
  induction l with
  | nil => intro vis pid; simp [iterPartsAux]
  | cons rel0 rest ih =>
    intro vis pid
    cases htgt0 : rel0.target with
    | ref url =>
      simp only [iterPartsAux, htgt0, ih, List.mem_cons]
      constructor
      · rintro ⟨⟨rel, hmem, htgt⟩, hnv⟩
        exact ⟨⟨rel, Or.inr hmem, htgt⟩, hnv⟩
      · rintro ⟨⟨rel, hmem, htgt⟩, hnv⟩
        rcases hmem with rfl | hmem
        · rw [htgt0] at htgt; exact RelTgt.noConfusion htgt
        · exact ⟨⟨rel, hmem, htgt⟩, hnv⟩
    | part pid0 =>
      by_cases hv : pid0 ∈ vis
      · simp only [iterPartsAux, htgt0, if_pos hv, ih, List.mem_cons]
        constructor
        · rintro ⟨⟨rel, hmem, htgt⟩, hnv⟩
          exact ⟨⟨rel, Or.inr hmem, htgt⟩, hnv⟩
        · rintro ⟨⟨rel, hmem, htgt⟩, hnv⟩
          rcases hmem with rfl | hmem
          · rw [htgt0] at htgt
            cases htgt
            exact absurd hv hnv
          · exact ⟨⟨rel, hmem, htgt⟩, hnv⟩
      · simp only [iterPartsAux, htgt0, if_neg hv, List.mem_cons, ih]
        by_cases hpp : pid = pid0
        · subst hpp
          simp only [Finset.mem_insert]
          constructor
          · intro _
            exact ⟨⟨rel0, Or.inl rfl, htgt0⟩, hv⟩
          · intro _
            exact Or.inl trivial
        · simp only [Finset.mem_insert]
          constructor
          · rintro (rfl | ⟨⟨rel, hmem, htgt⟩, hnv⟩)
            · exact absurd rfl hpp
            · push_neg at hnv
              exact ⟨⟨rel, Or.inr hmem, htgt⟩, hnv.2⟩
          · rintro ⟨⟨rel, hmem, htgt⟩, hnv⟩
            rcases hmem with rfl | hmem
            · rw [htgt0] at htgt
              cases htgt
              exact absurd rfl hpp
            · refine Or.inr ⟨⟨rel, hmem, htgt⟩, ?_⟩
              push_neg
              exact ⟨hpp, hnv⟩

/-- The deduplicating part stream never repeats a part. -/
theorem iterPartsAux_nodup (l : List _Relationship) :
    ∀ vis : Finset Nat, (iterPartsAux l vis).Nodup := by
  induction l with
  | nil => intro vis; simp [iterPartsAux]
  | cons rel0 rest ih =>
    intro vis
    cases htgt0 : rel0.target with
    | ref url => simpa [iterPartsAux, htgt0] using ih vis
    | part pid0 =>
      by_cases hv : pid0 ∈ vis
      · simpa [iterPartsAux, htgt0, hv] using ih vis
      · simp only [iterPartsAux, htgt0, if_neg hv, List.nodup_cons]
        refine ⟨?_, ih (insert pid0 vis)⟩
        intro hc
        have := ((mem_iterPartsAux rest (insert pid0 vis) pid0).mp hc).2
        exact this (Finset.mem_insert_self pid0 vis)

/-- Claim C2: for every package, including one whose relationship graph has
cycles or parts with multiple incoming edges, `iter_parts()` yields each
part reachable from the package's own relationships exactly once: the
yielded list has no duplicates, and every reachable part appears in it. -/
theorem iter_parts_exactly_once (g : OpcPackage) :
    (g.iter_parts).Nodup ∧ ∀ pid, Reach g pid → pid ∈ g.iter_parts := by
  constructor
  · exact iterPartsAux_nodup _ _
  · intro pid hreach
    have hbud : g._rels.rels.length + fuelNeed g ∅ ≤
        g._rels.rels.length + fuelNeed g ∅ := le_refl _
    obtain ⟨hcompa, hcompb⟩ := walkRels_complete g (g._rels.rels.length + fuelNeed g ∅)
      g._rels.rels ∅ hbud
    -- each reachable part is the internal target of some emitted relationship
    have hmain : ∃ rel ∈ g.iter_rels, rel.target = .part pid := by
      induction hreach with
      | base hmem htgt => exact ⟨_, hcompa _ hmem, htgt⟩
      | step hq hrel htgt ihq =>
        obtain ⟨rel1, hrel1, htgt1⟩ := ihq
        have hq2 : _ ∈ (walkRels g (g._rels.rels.length + fuelNeed g ∅) g._rels.rels ∅).2 :=
          walkRels_targets g _ _ _ rel1 _ hrel1 htgt1
        have := hcompb _ hq2 (Finset.not_mem_empty _) _ hrel
        exact ⟨_, this, htgt⟩
    rw [OpcPackage.iter_parts, mem_iterPartsAux]
    exact ⟨hmain, Finset.not_mem_empty pid⟩

/-- Claim C9: every internal relationship yielded by `iter_rels()` has its
target part yielded by `iter_parts()`; relationships — external ones
included — of the package and of every yielded part are all emitted by
`iter_rels()`; and external relationships contribute no part: every yielded
part is the target of an internal relationship of the stream. -/
theorem iter_rels_iter_parts_agree (g : OpcPackage) :
    (∀ rel ∈ g.iter_rels, ∀ pid, rel.target = .part pid → pid ∈ g.iter_parts) ∧
    (∀ rel ∈ g._rels.rels, rel ∈ g.iter_rels) ∧
    (∀ pid ∈ g.iter_parts, ∀ rel ∈ g.relsOf pid, rel ∈ g.iter_rels) ∧
    (∀ pid ∈ g.iter_parts, ∃ rel ∈ g.iter_rels, rel.target = .part pid) := by
  have hbud : g._rels.rels.length + fuelNeed g ∅ ≤
      g._rels.rels.length + fuelNeed g ∅ := le_refl _
  obtain ⟨hcompa, hcompb⟩ := walkRels_complete g (g._rels.rels.length + fuelNeed g ∅)
    g._rels.rels ∅ hbud
  refine ⟨?_, ?_, ?_, ?_⟩
  · intro rel hmem pid htgt
    rw [OpcPackage.iter_parts, mem_iterPartsAux]
    exact ⟨⟨rel, hmem, htgt⟩, Finset.not_mem_empty pid⟩
  · intro rel hmem
    exact hcompa rel hmem
  · intro pid hmem rel hrel
    rw [OpcPackage.iter_parts, mem_iterPartsAux] at hmem
    obtain ⟨⟨rel1, hrel1, htgt1⟩, _⟩ := hmem
    have hq2 : pid ∈ (walkRels g (g._rels.rels.length + fuelNeed g ∅) g._rels.rels ∅).2 :=
      walkRels_targets g _ _ _ rel1 pid hrel1 htgt1
    exact hcompb pid hq2 (Finset.not_mem_empty pid) rel hrel
  · intro pid hmem
    rw [OpcPackage.iter_parts, mem_iterPartsAux] at hmem
    exact hmem.1

theorem render_injective (t : Tmpl) : Function.Injective t.render := by
  intro m n h
  exact repr_injective
    (append_right_injective t.pfx (append_left_injective t.sfx h))

/-- What the probe of `next_partname` returns on any package and template:
the first free candidate scanning downward from `card + 1`. -/
theorem next_partname_probe_spec (g : OpcPackage) (t : Tmpl) :
    ∃ n, 1 ≤ n ∧ n ≤ (g.matchingPartnames t.computedPfx).card + 1 ∧
      g.next_partname t = some (t.render n) ∧
      t.render n ∉ g.matchingPartnames t.computedPfx ∧
      ∀ m, n < m → m ≤ (g.matchingPartnames t.computedPfx).card + 1 →
        t.render m ∈ g.matchingPartnames t.computedPfx := by
  obtain ⟨m, hm1, hm2, hm3⟩ :=
    exists_free_candidate (g.matchingPartnames t.computedPfx) t.render (render_injective t)
  have hfree : ∃ m, 1 ≤ m ∧ m ≤ (g.matchingPartnames t.computedPfx).card + 1 ∧
      (fun n => decide (t.render n ∉ g.matchingPartnames t.computedPfx)) m = true :=
    ⟨m, hm1, hm2, by simpa using hm3⟩
  obtain ⟨n, hn⟩ := find_descendList_isSome _ _ hfree
  obtain ⟨hp, h1, h2, h4⟩ := find_descendList_spec _ _ _ hn
  refine ⟨n, h1, h2, ?_, by simpa using hp, ?_⟩
  · simp only [OpcPackage.next_partname, hn, Option.map_some']
  · intro k hk1 hk2
    have := h4 k hk1 hk2
    simpa using this

/-- Claim C4, counterexample: for the package whose existing slide
partnames are {slide1, slide4} (template prefix size n0 = 2) the smallest
unused gap number is 2 (slide1 exists, slide2 does not), yet
`next_partname` returns slide3 — the first free candidate probing downward
from n0 + 1 = 3 — not the smallest-gap filler slide2. -/
theorem next_partname_counterexample_C4 :
    gapPkg.next_partname slidesTmpl = some "/ppt/slides/slide3.xml" ∧
    "/ppt/slides/slide1.xml" ∈ gapPkg.matchingPartnames slidesTmpl.computedPfx ∧
    "/ppt/slides/slide2.xml" ∉ gapPkg.matchingPartnames slidesTmpl.computedPfx ∧
    slidesTmpl.render 2 = "/ppt/slides/slide2.xml" ∧
    ("/ppt/slides/slide3.xml" : String) ≠ "/ppt/slides/slide2.xml" := by
  exact ⟨by decide, by decide, by decide, by decide, by decide⟩

/-- Claim C4 (amended): for every package and single-placeholder template
whose literal prefix is recovered by the `(tmpl % 42).find("42")` slice
(`computedPfx t = t.pfx`; true whenever `"42"` does not occur before the
placeholder), `next_partname` collects the set of existing partnames
sharing the template's literal prefix (of size n0), probes candidates
`tmpl % n` for `n` from `n0 + 1` down to `1`, and returns the first
candidate not in the set — the candidate with the largest free number in
`[1, n0 + 1]` (so `tmpl % (n0 + 1)` when the set occupies `1..n0`, and the
smallest unused gap only when at most one candidate is free). -/
theorem next_partname_spec (g : OpcPackage) (t : Tmpl)
    (hpfx : t.computedPfx = t.pfx) :
    ∃ n, 1 ≤ n ∧ n ≤ (g.matchingPartnames t.pfx).card + 1 ∧
      g.next_partname t = some (t.render n) ∧
      t.render n ∉ g.matchingPartnames t.pfx ∧
      ∀ m, n < m → m ≤ (g.matchingPartnames t.pfx).card + 1 →
        t.render m ∈ g.matchingPartnames t.pfx := by
  have h := next_partname_probe_spec g t
  rwa [hpfx] at h

/-- Witness for C4 at the concrete gap package. -/
theorem next_partname_spec_witness :
    ∃ n, 1 ≤ n ∧ n ≤ (gapPkg.matchingPartnames slidesTmpl.pfx).card + 1 ∧
      gapPkg.next_partname slidesTmpl = some (slidesTmpl.render n) ∧
      slidesTmpl.render n ∉ gapPkg.matchingPartnames slidesTmpl.pfx ∧
      ∀ m, n < m → m ≤ (gapPkg.matchingPartnames slidesTmpl.pfx).card + 1 →
        slidesTmpl.render m ∈ gapPkg.matchingPartnames slidesTmpl.pfx :=
  next_partname_spec gapPkg slidesTmpl (by decide)

/-- Claim C8: id/partname allocation cannot exhaust its candidate space:
`next_partname` never reaches its fatal branch (`Exception("...ran out of
candidate_partnames")`, modelled by `none`) — among the n0 + 1 distinct
candidates at most n0 can lie in a set of n0 partnames — and `_next_rId`
always returns a free rId string instead of falling through its loop. -/
theorem allocation_never_exhausts :
    (∀ (g : OpcPackage) (t : Tmpl), ∃ s, g.next_partname t = some s) ∧
    (∀ c : _Relationships, ∃ s, c._next_rId = some s ∧ s ∉ c.keys) := by
  constructor
  · intro g t
    obtain ⟨n, _, _, hsome, _, _⟩ := next_partname_probe_spec g t
    exact ⟨t.render n, hsome⟩
  · intro c
    obtain ⟨n, h1, _, _, hfree, _⟩ := _next_rId_spec c
    exact ⟨rIdStr n, h1, hfree⟩

theorem from_xml_rId (base_uri : String) (e : CT_RelationshipElm)
    (parts : List (String × Nat)) (rel : _Relationship)
    (h : _Relationship.from_xml base_uri e parts = some rel) : rel.rId = e.rId := by
  cases hm : e.targetMode with
  | EXT =>
    rw [_Relationship.from_xml, hm] at h
    cases h
    rfl
  | INTERNAL =>
    rw [_Relationship.from_xml, hm] at h
    obtain ⟨pid, _, h2⟩ := Option.map_eq_some'.mp h
    rw [← h2]

theorem from_xml_of_not_dropped (base_uri : String) (e : CT_RelationshipElm)
    (parts : List (String × Nat))
    (hg : ¬ (e.targetMode = RTM.INTERNAL ∧
      partsLookup parts (from_rel_ref base_uri e.target_ref) = none)) :
    ∃ rel, _Relationship.from_xml base_uri e parts = some rel ∧ rel.rId = e.rId := by
  cases hm : e.targetMode with
  | EXT => exact ⟨⟨e.rId, e.reltype, .ref e.target_ref⟩, by rw [_Relationship.from_xml, hm], rfl⟩
  | INTERNAL =>
    push_neg at hg
    have h2 := hg hm
    cases hl : partsLookup parts (from_rel_ref base_uri e.target_ref) with
    | none => exact absurd hl h2
    | some pid =>
      exact ⟨⟨e.rId, e.reltype, .part pid⟩, by rw [_Relationship.from_xml, hm, hl]; rfl, rfl⟩

theorem iter_valid_rels_sublist (base_uri : String) (xml_rels : List CT_RelationshipElm)
    (parts : List (String × Nat)) :
    ((iter_valid_rels base_uri xml_rels parts).map _Relationship.rId).Sublist
      (xml_rels.map CT_RelationshipElm.rId) := by
  induction xml_rels with
  | nil => simp [iter_valid_rels]
  | cons e rest ih =>
    rw [iter_valid_rels, List.filterMap_cons]
    by_cases hg : e.targetMode = RTM.INTERNAL ∧
        partsLookup parts (from_rel_ref base_uri e.target_ref) = none
    · rw [if_pos hg]
      exact (ih).cons e.rId
    · rw [if_neg hg]
      obtain ⟨rel, hfx, hrid⟩ := from_xml_of_not_dropped base_uri e parts hg
      rw [hfx]
      simp only [List.map_cons, hrid]
      exact (ih).cons₂ e.rId

theorem mem_iter_valid_rels {base_uri : String} {xml_rels : List CT_RelationshipElm}
    {parts : List (String × Nat)} {rel : _Relationship} :
    rel ∈ iter_valid_rels base_uri xml_rels parts ↔
      ∃ e ∈ xml_rels,
        ¬ (e.targetMode = RTM.INTERNAL ∧
          partsLookup parts (from_rel_ref base_uri e.target_ref) = none) ∧
        _Relationship.from_xml base_uri e parts = some rel := by
  rw [iter_valid_rels, List.mem_filterMap]
  constructor
  · rintro ⟨e, hmem, hfe⟩
    by_cases hg : e.targetMode = RTM.INTERNAL ∧
        partsLookup parts (from_rel_ref base_uri e.target_ref) = none
    · rw [if_pos hg] at hfe
      exact Option.noConfusion hfe
    · rw [if_neg hg] at hfe
      exact ⟨e, hmem, hg, hfe⟩
  · rintro ⟨e, hmem, hg, hfe⟩
    exact ⟨e, hmem, by rw [if_neg hg]; exact hfe⟩

theorem foldl_upsert_eq_append (l : List _Relationship) :
    ∀ acc, (∀ rel ∈ l, rel.rId ∉ acc.map _Relationship.rId) →
      (l.map _Relationship.rId).Nodup → l.foldl upsert acc = acc ++ l := by
  induction l with
  | nil => intro acc _ _; simp
  | cons rel rest ih =>
    intro acc hdisj hnd
    simp only [List.map_cons, List.nodup_cons] at hnd
    rw [List.foldl_cons, upsert_of_fresh acc rel (hdisj rel (List.mem_cons_self rel rest))]
    rw [ih (acc ++ [rel]) ?_ hnd.2]
    · simp
    · intro r hr
      simp only [List.map_append, List.mem_append, List.map_cons, List.map_nil]
      push_neg
      constructor
      · exact hdisj r (List.mem_cons_of_mem rel hr)
      · intro hc
        simp only [List.mem_singleton] at hc
        exact hnd.1 (hc ▸ List.mem_map_of_mem _Relationship.rId hr)

theorem find?_rId_of_nodup (l : List _Relationship) (rel : _Relationship)
    (hnd : (l.map _Relationship.rId).Nodup) (hmem : rel ∈ l) :
    l.find? (fun r => r.rId = rel.rId) = some rel := by
  induction l with
  | nil => simp at hmem
  | cons r rest ih =>
    simp only [List.map_cons, List.nodup_cons] at hnd
    rcases List.mem_cons.mp hmem with rfl | hmem2
    · rw [List.find?_cons_of_pos]
      simp
    · rw [List.find?_cons_of_neg, ih hnd.2 hmem2]
      simp only [decide_eq_true_eq]
      intro hc
      exact hnd.1 (hc ▸ List.mem_map_of_mem _Relationship.rId hmem2)

/-- Claim C1 (amended): the silent-drop rule holds for the relationship
records processed by `_Relationships.load_from_xml` (the package's own
relationships, rebuilt from the root `.rels` XML after unmarshalling):
every record whose mode is Internal and whose resolved target partname is
absent from the part map is dropped — without any error, the function being
total — and every other record of the same batch is installed unaffected
under its own rId.  (The records resolved by
`Unmarshaller._unmarshal_relationships`, i.e. those owned by parts, are
NOT covered by this rule: there a missing internal target raises
`KeyError`, see the counterexample.) -/
theorem load_from_xml_drops_only_missing_internal (base_uri : String)
    (xml_rels : List CT_RelationshipElm) (parts : List (String × Nat))
    (hnodup : (xml_rels.map CT_RelationshipElm.rId).Nodup) :
    ∀ e ∈ xml_rels,
      (e.targetMode = RTM.INTERNAL ∧
          partsLookup parts (from_rel_ref base_uri e.target_ref) = none →
        (_Relationships.load_from_xml base_uri xml_rels parts).lookup e.rId = none) ∧
      (¬ (e.targetMode = RTM.INTERNAL ∧
          partsLookup parts (from_rel_ref base_uri e.target_ref) = none) →
        (_Relationships.load_from_xml base_uri xml_rels parts).lookup e.rId =
          _Relationship.from_xml base_uri e parts) := by
  intro e hmem
  have hnd_valid : ((iter_valid_rels base_uri xml_rels parts).map _Relationship.rId).Nodup :=
    (iter_valid_rels_sublist base_uri xml_rels parts).nodup hnodup
  have hload : _Relationships.load_from_xml base_uri xml_rels parts =
      ⟨iter_valid_rels base_uri xml_rels parts⟩ := by
    rw [_Relationships.load_from_xml,
      foldl_upsert_eq_append _ [] (by simp) hnd_valid, List.nil_append]
  have hinj := List.inj_on_of_nodup_map hnodup
  constructor
  · intro hdrop
    rw [hload, _Relationships.lookup]
    apply List.find?_eq_none.mpr
    intro rel hrelmem
    simp only [decide_eq_true_eq]
    intro hrid
    obtain ⟨e2, he2mem, hg2, hfx2⟩ := mem_iter_valid_rels.mp hrelmem
    have he2rid : e2.rId = e.rId := (from_xml_rId base_uri e2 parts rel hfx2) ▸ hrid
    have : e2 = e := hinj he2mem hmem he2rid
    exact hg2 (this ▸ hdrop)
  · intro hkeep
    obtain ⟨rel, hfx, hrid⟩ := from_xml_of_not_dropped base_uri e parts hkeep
    have hrelmem : rel ∈ iter_valid_rels base_uri xml_rels parts :=
      mem_iter_valid_rels.mpr ⟨e, hmem, hkeep, hfx⟩
    rw [hload, _Relationships.lookup, hfx]
    have hfind := find?_rId_of_nodup _ rel hnd_valid hrelmem
    rwa [hrid] at hfind

/-- Claim C1, counterexample: a relationship record owned by a part (not
the package root) whose mode is Internal and whose target partname is
absent from the part map is not silently dropped during load: the
unmarshaller raises `KeyError` on `parts[srel.target_partname]`. -/
theorem unmarshal_missing_target_counterexample_C1 :
    _unmarshal_relationships
        [("/ppt/slides/slide1.xml",
          ⟨"rId1", "http://reltype/image", RTM.INTERNAL,
           "/ppt/media/NULL", "../media/NULL"⟩)]
        [("/ppt/slides/slide1.xml", 0)]
        ⟨⟨[]⟩, []⟩ = .error (.keyError "/ppt/media/NULL") := by
  rfl

/-- Witness for C1: on a two-record batch (one resolvable internal record,
one "voided" internal record) `load_from_xml` drops exactly the voided
record and installs the other unaffected. -/
theorem load_from_xml_witness_C1 :
    (_Relationships.load_from_xml "/"
        [⟨"rId1", "rt", RTM.INTERNAL, "ppt/s1.xml"⟩,
         ⟨"rId2", "rt", RTM.INTERNAL, "ppt/slides/NULL"⟩]
        [("/ppt/s1.xml", 0)]).lookup "rId2" = none ∧
    (_Relationships.load_from_xml "/"
        [⟨"rId1", "rt", RTM.INTERNAL, "ppt/s1.xml"⟩,
         ⟨"rId2", "rt", RTM.INTERNAL, "ppt/slides/NULL"⟩]
        [("/ppt/s1.xml", 0)]).lookup "rId1" =
      _Relationship.from_xml "/" ⟨"rId1", "rt", RTM.INTERNAL, "ppt/s1.xml"⟩
        [("/ppt/s1.xml", 0)] :=
  ⟨(load_from_xml_drops_only_missing_internal "/"
      [⟨"rId1", "rt", RTM.INTERNAL, "ppt/s1.xml"⟩,
       ⟨"rId2", "rt", RTM.INTERNAL, "ppt/slides/NULL"⟩]
      [("/ppt/s1.xml", 0)] (by decide)
      ⟨"rId2", "rt", RTM.INTERNAL, "ppt/slides/NULL"⟩ (by decide)).1 (by decide),
   (load_from_xml_drops_only_missing_internal "/"
      [⟨"rId1", "rt", RTM.INTERNAL, "ppt/s1.xml"⟩,
       ⟨"rId2", "rt", RTM.INTERNAL, "ppt/slides/NULL"⟩]
      [("/ppt/s1.xml", 0)] (by decide)
      ⟨"rId1", "rt", RTM.INTERNAL, "ppt/s1.xml"⟩ (by decide)).2 (by decide)⟩

/-- Removing a present key removes it entirely when the keys are distinct
(dict invariant). -/
theorem removeKey_not_mem (l : List _Relationship) (rId : String)
    (hnd : (l.map _Relationship.rId).Nodup) :
    rId ∉ (removeKey l rId).map _Relationship.rId := by
  induction l with
  | nil => simp [removeKey]
  | cons r rest ih =>
    simp only [List.map_cons, List.nodup_cons] at hnd
    rw [removeKey]
    by_cases hr : r.rId = rId
    · rw [if_pos hr]
      intro hc
      exact hnd.1 (hr ▸ hc)
    · rw [if_neg hr]
      simp only [List.map_cons, List.mem_cons]
      push_neg
      exact ⟨fun hc => hr hc.symm, ih hnd.2⟩

/-- Claim C6: for every XML-bearing part and every rId present in its
collection, `drop_rel(rId)` succeeds, and it removes the relationship if
and only if the count of in-document references to `rId` is under 2; with
2 or more references the part (collection included) is left unchanged. -/
theorem drop_rel_iff_ref_count_under_two (p : XmlPartSt) (rId : String)
    (hmem : rId ∈ p._rels.keys) (hnodup : p._rels.keys.Nodup) :
    ∃ p2, drop_rel p rId = .ok p2 ∧
      (rId ∉ p2._rels.keys ↔ _rel_ref_count p rId < 2) ∧
      (¬ _rel_ref_count p rId < 2 → p2 = p) := by
  by_cases hc : _rel_ref_count p rId < 2
  · obtain ⟨rel, hrelmem, hrid⟩ := List.mem_map.mp hmem
    have hfind : (p._rels.rels.find? (fun r => r.rId = rId)).isSome :=
      List.find?_isSome.mpr ⟨rel, hrelmem, by simpa using hrid⟩
    obtain ⟨rel2, hfind2⟩ := Option.isSome_iff_exists.mp hfind
    refine ⟨⟨p.element, ⟨removeKey p._rels.rels rId⟩⟩, ?_, ?_, ?_⟩
    · rw [drop_rel, if_pos hc, _Relationships.pop, hfind2]
    · have hout : rId ∉ (_Relationships.mk (removeKey p._rels.rels rId)).keys :=
        removeKey_not_mem p._rels.rels rId hnodup
      exact ⟨fun _ => hc, fun _ => hout⟩
    · intro hc2
      exact absurd hc hc2
  · refine ⟨p, ?_, ?_, fun _ => rfl⟩
    · rw [drop_rel, if_neg hc]
    · constructor
      · intro hout
        exact absurd hmem hout
      · intro h2
        exact absurd h2 hc

/-- Witness for C6 at two concrete parts: one whose XML references the id
twice (relationship kept, state unchanged) and the removal of the iff at a
part whose XML references it once (relationship removed). -/
theorem drop_rel_witness_C6 :
    (∃ p2, drop_rel ⟨⟨["rId9", "rId9"]⟩, ⟨[⟨"rId9", "t", .ref "u"⟩]⟩⟩ "rId9" = .ok p2 ∧
      ("rId9" ∉ p2._rels.keys ↔
        _rel_ref_count ⟨⟨["rId9", "rId9"]⟩, ⟨[⟨"rId9", "t", .ref "u"⟩]⟩⟩ "rId9" < 2) ∧
      (¬ _rel_ref_count ⟨⟨["rId9", "rId9"]⟩, ⟨[⟨"rId9", "t", .ref "u"⟩]⟩⟩ "rId9" < 2 →
        p2 = ⟨⟨["rId9", "rId9"]⟩, ⟨[⟨"rId9", "t", .ref "u"⟩]⟩⟩)) ∧
    (∃ p2, drop_rel ⟨⟨["rId9"]⟩, ⟨[⟨"rId9", "t", .ref "u"⟩]⟩⟩ "rId9" = .ok p2 ∧
      ("rId9" ∉ p2._rels.keys ↔
        _rel_ref_count ⟨⟨["rId9"]⟩, ⟨[⟨"rId9", "t", .ref "u"⟩]⟩⟩ "rId9" < 2) ∧
      (¬ _rel_ref_count ⟨⟨["rId9"]⟩, ⟨[⟨"rId9", "t", .ref "u"⟩]⟩⟩ "rId9" < 2 →
        p2 = ⟨⟨["rId9"]⟩, ⟨[⟨"rId9", "t", .ref "u"⟩]⟩⟩)) :=
  ⟨drop_rel_iff_ref_count_under_two ⟨⟨["rId9", "rId9"]⟩, ⟨[⟨"rId9", "t", .ref "u"⟩]⟩⟩
     "rId9" (by decide) (by decide),
   drop_rel_iff_ref_count_under_two ⟨⟨["rId9"]⟩, ⟨[⟨"rId9", "t", .ref "u"⟩]⟩⟩
     "rId9" (by decide) (by decide)⟩

/-- Claim C10, counterexample: assigning to the `blob` property of an
`XmlPart` does not store the bytes into the hidden `_blob` field — the
assignment raises `AttributeError` (the subclass getter-only property
shadows the base property), so the read-after-assignment experiment of the
claim never completes normally. -/
theorem xmlpart_blob_set_counterexample_C10 :
    XmlPartBlobSt.blobSet ⟨⟨["rId1"]⟩, none⟩ [7, 7, 7] =
      .error (.attributeError "cannot set attribute") := by
  rfl

/-- Claim C10 (amended): assigning to the `blob` property of an `XmlPart`
has no observable effect on its payload because the assignment always
raises `AttributeError`: `XmlPart` redefines `blob` as a getter-only
property, shadowing (not extending) the base `Part` property, so the base
setter never runs on an `XmlPart`; the payload is always the serialization
of the owned element and is independent of the `_blob` field.  (On a plain
`Part`, by contrast, the setter does store the bytes and the getter returns
them.) -/
theorem xmlpart_blob_independent_C10 (p : XmlPartBlobSt) (bytes_ : List Nat) :
    p.blobSet bytes_ = .error (.attributeError "cannot set attribute") ∧
    p.blobGet = serialize_part_xml p.element ∧
    (∀ b1 b2 : Option (List Nat),
      (XmlPartBlobSt.mk p.element b1).blobGet = (XmlPartBlobSt.mk p.element b2).blobGet) ∧
    (∀ (q : PartSt) (b : List Nat), (q.blobSet b).blobGet = some b) :=
  ⟨rfl, rfl, fun _ _ => rfl, fun _ _ => rfl⟩

/-- Witness for C2 at the cyclic example package: the traversal does not
repeat parts, and part 1 — reachable only through the cycle partner 0 — is
yielded. -/
theorem iter_parts_exactly_once_witness :
    (cyclePkg.iter_parts).Nodup ∧ 1 ∈ cyclePkg.iter_parts :=
  ⟨(iter_parts_exactly_once cyclePkg).1,
   (iter_parts_exactly_once cyclePkg).2 1
     (@Reach.step cyclePkg 0 ⟨"rId1", "t", .part 1⟩ 1
       (@Reach.base cyclePkg ⟨"rId1", "t", .part 0⟩ 0 (by decide) rfl)
       (by decide) rfl)⟩

/-- Witness for C9 at the cyclic example package: the internal
relationship from part 1 back to part 0 is emitted and its target is
yielded; the external relationship of part 0 is emitted as well. -/
theorem iter_rels_iter_parts_agree_witness :
    0 ∈ cyclePkg.iter_parts ∧
    (⟨"rId2", "t", .ref "http://x"⟩ : _Relationship) ∈ cyclePkg.iter_rels :=
  ⟨(iter_rels_iter_parts_agree cyclePkg).1 ⟨"rId1", "t", .part 0⟩ (by decide) 0 rfl,
   (iter_rels_iter_parts_agree cyclePkg).2.2.1 0 (by decide)
     ⟨"rId2", "t", .ref "http://x"⟩ (by decide)⟩
